import Mathlib

/-!
Shallow embedding of the Windsurf Memory Server v2 backend
(`backend/main.go`, the revision with tags, authoritative per the spec).

The SQLite table `memories` is modelled as a list of rows plus the
AUTOINCREMENT counter for the surrogate `id` column.  Each HTTP handler
becomes a pure function from the database state (and the decoded request)
to the new state and the response.  Timestamps are opaque `Nat` values
supplied by the caller (the handlers set `created_at = updated_at = now`).

SQL queries are modelled statement by statement:
  * `SELECT COALESCE(MAX(version), 0) ... WHERE memory_id = ?`
    is `maxVersion`;
  * `UPDATE ... SET archived=1 WHERE ...` is a `List.map` over the rows;
  * `SELECT ... WHERE archived=0 ORDER BY memory_id, version DESC`
    is a filter followed by a stable `mergeSort` with the lexicographic
    key (memory_id ascending, version descending);
  * `LIKE` is given SQLite default semantics: wildcard `%` matches any
    run of characters, `_` matches any single character, and ASCII
    letters compare case-insensitively.
-/

namespace MemoryServer

/-- One row of the `memories` table (`Memory` struct in main.go, with the
`tags` column stored as a JSON array, here directly a list of strings). -/
structure Row where
  id : Nat
  memory_id : String
  version : Nat
  content : String
  tags : List String
  archived : Bool
  created_at : Nat
  updated_at : Nat
deriving Repr, DecidableEq

/-- Database state: the `memories` table plus the AUTOINCREMENT counter. -/
structure DB where
  rows : List Row
  nextRowId : Nat
deriving Repr, DecidableEq

/-- The JSON success payload (`StatusResponse` in main.go): `version` is
omitted (`none`) for the archive endpoint (`omitempty`). -/
structure StatusResponse where
  status : String
  memory_id : String
  version : Option Nat
deriving Repr, DecidableEq

/-- Error responses the handlers produce (fuego.BadRequestError,
fuego.NotFoundError, fuego.HTTPError with status 500). -/
inductive ApiError where
  | badRequest (detail : String)
  | notFound (detail : String)
  | internal (detail : String)
deriving Repr, DecidableEq

/-- `SELECT COALESCE(MAX(version), 0) FROM memories WHERE memory_id = ?`
over an explicit row list. -/
def maxVersionR (rows : List Row) (mid : String) : Nat :=
  ((rows.filter (fun r => r.memory_id = mid)).map Row.version).foldr max 0

/-- `SELECT COALESCE(MAX(version), 0) FROM memories WHERE memory_id = ?`:
maximum version over all rows (archived or not) of the lineage, 0 when
the lineage has no rows. -/
def maxVersion (db : DB) (mid : String) : Nat :=
  maxVersionR db.rows mid

/-- POST /save-memory: read max version, insert one new non-archived row
with version `maxVersion + 1`.  Never touches existing rows. -/
def saveMemory (db : DB) (mid c : String) (ts : List String) (now : Nat) :
    DB × StatusResponse :=
  let v := maxVersion db mid + 1
  let row : Row := ⟨db.nextRowId, mid, v, c, ts, false, now, now⟩
  (⟨db.rows ++ [row], db.nextRowId + 1⟩, ⟨"saved", mid, some v⟩)

/-- Effect of `UPDATE memories SET archived=1 WHERE memory_id=? AND archived=0`
on one row. -/
def archiveIfActive (mid : String) (r : Row) : Row :=
  if r.memory_id = mid ∧ r.archived = false then { r with archived := true } else r

/-- Effect of `UPDATE memories SET archived=1 WHERE memory_id=?` on one row. -/
def archiveRow (mid : String) (r : Row) : Row :=
  if r.memory_id = mid then { r with archived := true } else r

/-- POST /update-memory: archive the active rows of the lineage, then read
max version (over all rows, archived included) and insert one new
non-archived row, exactly as Save does. -/
def updateMemory (db : DB) (mid c : String) (ts : List String) (now : Nat) :
    DB × StatusResponse :=
  let db1 : DB := ⟨db.rows.map (archiveIfActive mid), db.nextRowId⟩
  let v := maxVersion db1 mid + 1
  let row : Row := ⟨db1.nextRowId, mid, v, c, ts, false, now, now⟩
  (⟨db1.rows ++ [row], db1.nextRowId + 1⟩, ⟨"updated", mid, some v⟩)

/-- POST /delete-memory: `UPDATE memories SET archived=1 WHERE memory_id=?`
(all versions, regardless of current archived value); always replies
status "archived". -/
def deleteMemory (db : DB) (mid : String) : DB × StatusResponse :=
  (⟨db.rows.map (archiveRow mid), db.nextRowId⟩, ⟨"archived", mid, none⟩)

/-- `ORDER BY memory_id, version DESC` as a boolean preorder on rows.
TEXT values are ordered lexicographically by character, the order SQLite
uses for its default BINARY collation. -/
def rowLE (a b : Row) : Bool :=
  if a.memory_id = b.memory_id then decide (b.version ≤ a.version)
  else decide (a.memory_id.data < b.memory_id.data)

/-- `WHERE archived=0` over an explicit row list. -/
def activeR (rows : List Row) : List Row :=
  rows.filter (fun r => r.archived = false)

/-- `WHERE archived=0`. -/
def activeRows (db : DB) : List Row :=
  activeR db.rows

/-- GET /list-memories:
`SELECT ... WHERE archived=0 ORDER BY memory_id, version DESC`. -/
def listMemories (db : DB) : List Row :=
  (activeRows db).mergeSort rowLE

/-- GET /list-memories-by-tag: empty tag is rejected with a 400; otherwise
run the same SELECT as /list-memories and keep (in order) the rows whose
`tags` array contains the tag verbatim (the Go loop `if t == tag`). -/
def listMemoriesByTag (db : DB) (tag : String) : Except ApiError (List Row) :=
  if tag = "" then .error (.badRequest "Missing tag parameter")
  else .ok ((listMemories db).filter (fun r => r.tags.contains tag))

/-- `WHERE memory_id=? AND archived=0` over an explicit row list. -/
def currentRowsR (rows : List Row) (mid : String) : List Row :=
  rows.filter (fun r => r.memory_id = mid ∧ r.archived = false)

/-- `WHERE memory_id=? AND archived=0` — the active rows of one lineage. -/
def currentRowsFor (db : DB) (mid : String) : List Row :=
  currentRowsR db.rows mid

/-- `ORDER BY version DESC` as a boolean preorder. -/
def verDescLE (a b : Row) : Bool :=
  decide (b.version ≤ a.version)

/-- GET /get-memory-by-id/(memory_id):
`SELECT ... WHERE memory_id=? AND archived=0 ORDER BY version DESC LIMIT 1`,
404 when the result set is empty. -/
def getMemoryById (db : DB) (mid : String) : Except ApiError Row :=
  match ((currentRowsFor db mid).mergeSort verDescLE).head? with
  | some r => .ok r
  | none => .error (.notFound "not found")

/-- ASCII lower-casing, the folding SQLite's default LIKE applies. -/
def asciiLower (c : Char) : Char :=
  if 'A' ≤ c ∧ c ≤ 'Z' then Char.ofNat (c.toNat + 32) else c

/-- Try a predicate on every suffix of a string; this is how a `%`
wildcard consumes an arbitrary run of characters. -/
def likeStar (f : List Char → Bool) : List Char → Bool
  | [] => f []
  | c :: cs => f (c :: cs) || likeStar f cs

/-- SQLite LIKE pattern matching: `%` matches any run of characters,
`_` any single character, other characters match up to ASCII case
(SQLite's default case folding for LIKE). -/
def likeMatch : List Char → List Char → Bool
  | [], s => s.isEmpty
  | '%' :: ps, s => likeStar (likeMatch ps) s
  | '_' :: ps, s =>
      match s with
      | [] => false
      | _ :: cs => likeMatch ps cs
  | pc :: ps, s =>
      match s with
      | [] => false
      | c :: cs => asciiLower pc = asciiLower c && likeMatch ps cs

/-- The pattern the search handler builds: "%" + q + "%", with no escaping
of wildcard characters occurring in q. -/
def likePattern (q : String) : List Char :=
  '%' :: (q.data ++ ['%'])

/-- The WHERE clause of /search-memories applied to one row. -/
def searchMatch (q : String) (r : Row) : Bool :=
  likeMatch (likePattern q) r.memory_id.data || likeMatch (likePattern q) r.content.data

/-- GET /search-memories: `SELECT ... WHERE archived=0 AND (memory_id LIKE ?
OR content LIKE ?) ORDER BY memory_id, version DESC` with both parameters
bound to "%" + q + "%". -/
def searchMemories (db : DB) (q : String) : List Row :=
  ((activeRows db).filter (searchMatch q)).mergeSort rowLE

/-- A decoded request body for the three POST endpoints arrives as
`Except String body`: fuego's `c.Body()` either yields the parsed value
or a decoding error message. -/
def saveHandler (db : DB) (body : Except String (String × String × List String))
    (now : Nat) : DB × Except ApiError StatusResponse :=
  match body with
  | .error e => (db, .error (.badRequest e))
  | .ok (mid, c, ts) =>
      let res := saveMemory db mid c ts now
      (res.1, .ok res.2)

/-- POST /update-memory at the handler level: malformed body short-circuits
to a 400 before any SQL statement runs. -/
def updateHandler (db : DB) (body : Except String (String × String × List String))
    (now : Nat) : DB × Except ApiError StatusResponse :=
  match body with
  | .error e => (db, .error (.badRequest e))
  | .ok (mid, c, ts) =>
      let res := updateMemory db mid c ts now
      (res.1, .ok res.2)

/-- POST /delete-memory at the handler level. -/
def deleteHandler (db : DB) (body : Except String String) :
    DB × Except ApiError StatusResponse :=
  match body with
  | .error e => (db, .error (.badRequest e))
  | .ok mid =>
      let res := deleteMemory db mid
      (res.1, .ok res.2)

/-- Literal (case-sensitive) substring containment, used to state what the
spec means by "contains the query as a substring". -/
def containsSub (n : List Char) : List Char → Bool
  | [] => n.isEmpty
  | c :: t => n.isPrefixOf (c :: t) || containsSub n t

/-- String-level literal substring test. -/
def containsSubstr (n h : String) : Bool :=
  containsSub n.data h.data

/-- Invariant I2 of the spec, as a state predicate: at most one
non-archived row per memory_id. -/
def atMostOneActive (db : DB) : Prop :=
  ∀ mid, (currentRowsFor db mid).length ≤ 1

/-- One write request directed at a fixed memory_id: the body of a
/save-memory or /update-memory call. -/
inductive WriteOp where
  | save (c : String) (ts : List String) (now : Nat)
  | update (c : String) (ts : List String) (now : Nat)

/-- Dispatch one write operation. -/
def applyOp (mid : String) (db : DB) : WriteOp → DB × StatusResponse
  | .save c ts now => saveMemory db mid c ts now
  | .update c ts now => updateMemory db mid c ts now

/-- Run a sequence of Save/Update calls on one memory_id, collecting the
version numbers the server reports. -/
def runOps (db : DB) (mid : String) : List WriteOp → DB × List Nat
  | [] => (db, [])
  | op :: rest =>
      let st := applyOp mid db op
      let r := runOps st.1 mid rest
      (r.1, (st.2.version.getD 0) :: r.2)

/-- The arguments of one /update-memory call (memory_id aside). -/
structure UpdArgs where
  content : String
  tags : List String
  now : Nat

/-- Fold a sequence of Update calls over the state. -/
def applyUpdates (db : DB) (mid : String) (us : List UpdArgs) : DB :=
  us.foldl (fun d u => (updateMemory d mid u.content u.tags u.now).1) db

/-- Concrete states used to instantiate the theorems below. -/
def emptyDB : DB := ⟨[], 1⟩

/-- A lineage with a single active row. -/
def rowSingle : Row := ⟨1, "m", 1, "c", ["p"], false, 0, 0⟩

/-- A database holding exactly `rowSingle`. -/
def dbSingle : DB := ⟨[rowSingle], 2⟩

/-- An active row whose content "ab" LIKE-matches the pattern "%_b%". -/
def rowUnderscore : Row := ⟨1, "m", 1, "ab", [], false, 0, 0⟩

/-- A database holding exactly `rowUnderscore`. -/
def dbUnderscore : DB := ⟨[rowUnderscore], 2⟩

/-- An active row whose content "xyz" LIKE-matches the pattern "%x_z%". -/
def rowWild : Row := ⟨1, "m", 1, "xyz", [], false, 0, 0⟩

/-- A database holding exactly `rowWild`. -/
def dbWild : DB := ⟨[rowWild], 2⟩

/-- The state reached by two consecutive Save calls on one memory_id
starting from the empty store. -/
def dbTwoSaves : DB := (saveMemory (saveMemory emptyDB "X" "v1" [] 0).1 "X" "v2" [] 1).1

/-- Row inserted by Save("X","c1",["p"]) on the empty store. -/
def rowTagV1 : Row := ⟨1, "X", 1, "c1", ["p"], false, 0, 0⟩

/-- Row inserted by a following Save("X","c2",[]): the current record of
the lineage, tagged with nothing. -/
def rowTagV2 : Row := ⟨2, "X", 2, "c2", [], false, 1, 1⟩

/-- Row inserted by a following Save("X","c2",["p"]) instead. -/
def rowTagV2p : Row := ⟨2, "X", 2, "c2", ["p"], false, 1, 1⟩

/-- State reached by Save("X","c1",["p"]) then Save("X","c2",[]): two
active rows for one id, only the outdated one tagged "p". -/
def dbMixedTags : DB :=
  (saveMemory (saveMemory emptyDB "X" "c1" ["p"] 0).1 "X" "c2" [] 1).1

/-- State reached by Save("X","c1",["p"]) then Save("X","c2",["p"]): two
active rows for one id, both tagged "p". -/
def dbTwoTagged : DB :=
  (saveMemory (saveMemory emptyDB "X" "c1" ["p"] 0).1 "X" "c2" ["p"] 1).1

/-! ### Helper lemmas -/

theorem foldr_max_init (l : List Nat) (a : Nat) :
    l.foldr max a = max a (l.foldr max 0) := by
  induction l with
  | nil => simp
  | cons x t ih => simp only [List.foldr_cons, ih]; omega

theorem le_foldr_max {l : List Nat} {x : Nat} (h : x ∈ l) :
    x ≤ l.foldr max 0 := by
  induction l with
  | nil => simp at h
  | cons y t ih =>
      rcases List.mem_cons.mp h with rfl | h'
      · simp only [List.foldr_cons]; omega
      · have := ih h'
        simp only [List.foldr_cons]; omega

theorem version_le_maxVersionR {rows : List Row} {r : Row} (hr : r ∈ rows)
    {mid : String} (hm : r.memory_id = mid) :
    r.version ≤ maxVersionR rows mid := by
  apply le_foldr_max
  exact List.mem_map.mpr ⟨r, List.mem_filter.mpr ⟨hr, by simp [hm]⟩, rfl⟩

theorem maxVersionR_append_row (rows : List Row) (r : Row) {mid : String}
    (hm : r.memory_id = mid) :
    maxVersionR (rows ++ [r]) mid = max r.version (maxVersionR rows mid) := by
  simp only [maxVersionR, List.filter_append, List.map_append, List.foldr_append,
    List.filter_cons, List.filter_nil]
  rw [if_pos (by simp [hm])]
  simp only [List.map_cons, List.map_nil, List.foldr_cons, List.foldr_nil]
  rw [foldr_max_init]
  omega

theorem maxVersion_save (db : DB) (mid c : String) (ts : List String) (now : Nat) :
    maxVersion (saveMemory db mid c ts now).1 mid = maxVersion db mid + 1 := by
  show maxVersionR (db.rows ++ [_]) mid = _
  rw [maxVersionR_append_row db.rows _ rfl]
  show max (maxVersionR db.rows mid + 1) (maxVersionR db.rows mid) = _
  simp only [maxVersion]
  omega

theorem archiveIfActive_memory_id (mid : String) (r : Row) :
    (archiveIfActive mid r).memory_id = r.memory_id := by
  unfold archiveIfActive; split <;> simp

theorem archiveIfActive_version (mid : String) (r : Row) :
    (archiveIfActive mid r).version = r.version := by
  unfold archiveIfActive; split <;> simp

theorem maxVersionR_archiveMap (rows : List Row) (amid mid : String) :
    maxVersionR (rows.map (archiveIfActive amid)) mid = maxVersionR rows mid := by
  induction rows with
  | nil => rfl
  | cons r t ih =>
      simp only [List.map_cons, maxVersionR, List.filter_cons,
        archiveIfActive_memory_id]
      by_cases hm : r.memory_id = mid
      · rw [if_pos (by simp [hm]), if_pos (by simp [hm])]
        simp only [List.map_cons, List.foldr_cons, archiveIfActive_version]
        simp only [maxVersionR] at ih
        rw [ih]
      · rw [if_neg (by simp [hm]), if_neg (by simp [hm])]
        exact ih

theorem maxVersion_update (db : DB) (mid c : String) (ts : List String) (now : Nat) :
    maxVersion (updateMemory db mid c ts now).1 mid = maxVersion db mid + 1 := by
  show maxVersionR (db.rows.map (archiveIfActive mid) ++ [_]) mid = _
  rw [maxVersionR_append_row _ _ rfl]
  show max (maxVersionR (db.rows.map (archiveIfActive mid)) mid + 1) _ = _
  rw [maxVersionR_archiveMap]
  simp only [maxVersion]
  omega

theorem currentRowsR_archiveMap (rows : List Row) (mid : String) :
    currentRowsR (rows.map (archiveIfActive mid)) mid = [] := by
  unfold currentRowsR
  rw [List.filter_eq_nil_iff]
  intro a ha
  obtain ⟨r, _, rfl⟩ := List.mem_map.mp ha
  unfold archiveIfActive
  split
  · simp
  · rename_i hcond
    simpa using hcond

theorem currentRowsFor_update (db : DB) (mid c : String) (ts : List String) (now : Nat) :
    currentRowsFor (updateMemory db mid c ts now).1 mid =
      [⟨db.nextRowId, mid, maxVersion db mid + 1, c, ts, false, now, now⟩] := by
  show currentRowsR (db.rows.map (archiveIfActive mid) ++ [_]) mid = _
  rw [currentRowsR, List.filter_append, ← currentRowsR, currentRowsR_archiveMap]
  rw [List.filter_cons, if_pos (by simp)]
  simp only [List.filter_nil, List.nil_append]
  have := maxVersionR_archiveMap db.rows mid mid
  simp only [maxVersion, this]

theorem mergeSort_eq_nil_iff {l : List Row} {le : Row → Row → Bool} :
    l.mergeSort le = [] ↔ l = [] := by
  constructor
  · intro h
    have hl := congrArg List.length h
    simpa using hl
  · intro h
    simp [h]

theorem mergeSort_pair {α : Type} (a b : α) (le : α → α → Bool) :
    ([a, b] : List α).mergeSort le = if le a b then [a, b] else [b, a] := by
  rw [List.mergeSort]
  simp [List.splitInTwo, List.splitAt, List.splitAt.go, List.merge]

theorem getMemoryById_single {db : DB} {mid : String} {r : Row}
    (h : currentRowsFor db mid = [r]) : getMemoryById db mid = .ok r := by
  unfold getMemoryById
  rw [h, List.mergeSort_singleton]
  rfl

theorem getMemoryById_err_iff (db : DB) (mid : String) :
    getMemoryById db mid = .error (.notFound "not found") ↔
      currentRowsFor db mid = [] := by
  unfold getMemoryById
  rcases hh : ((currentRowsFor db mid).mergeSort verDescLE).head? with _ | r
  · have hnil := mergeSort_eq_nil_iff.mp (List.head?_eq_none_iff.mp hh)
    simp [hnil]
  · obtain ⟨t, ht⟩ := List.head?_eq_some_iff.mp hh
    have : currentRowsFor db mid ≠ [] := by
      intro hc
      rw [hc] at ht
      simp at ht
    simp [this]

theorem verDescLE_trans (a b c : Row) :
    verDescLE a b → verDescLE b c → verDescLE a c := by
  simp only [verDescLE, decide_eq_true_eq]
  omega

theorem verDescLE_total (a b : Row) : verDescLE a b || verDescLE b a := by
  simp only [verDescLE]
  rcases Nat.le_total a.version b.version with h | h <;> simp [h]

theorem getMemoryById_ok_max {db : DB} {mid : String} {r : Row}
    (h : getMemoryById db mid = .ok r) :
    r ∈ currentRowsFor db mid ∧
      ∀ r' ∈ currentRowsFor db mid, r'.version ≤ r.version := by
  unfold getMemoryById at h
  rcases hh : ((currentRowsFor db mid).mergeSort verDescLE).head? with _ | r0
  · rw [hh] at h
    simp at h
  · rw [hh] at h
    simp only [Except.ok.injEq] at h
    subst h
    obtain ⟨t, ht⟩ := List.head?_eq_some_iff.mp hh
    have hsorted := List.sorted_mergeSort verDescLE_trans verDescLE_total
      (currentRowsFor db mid)
    rw [ht] at hsorted
    have hpw := List.pairwise_cons.mp hsorted
    constructor
    · exact List.mem_mergeSort.mp (ht ▸ List.mem_cons_self _ _)
    · intro r' hr'
      have hr2 : r' ∈ (currentRowsFor db mid).mergeSort verDescLE :=
        List.mem_mergeSort.mpr hr'
      rw [ht] at hr2
      rcases List.mem_cons.mp hr2 with rfl | hmem
      · exact Nat.le_refl _
      · have hle := hpw.1 r' hmem
        simpa [verDescLE] using hle

theorem activeR_filter_mid (rows : List Row) (mid : String) :
    (activeR rows).filter (fun r => r.memory_id = mid) = currentRowsR rows mid := by
  simp only [activeR, currentRowsR, List.filter_filter]
  apply List.filter_congr
  intro a _
  simp only [Bool.decide_and]

theorem listMemories_filter_mid_perm (db : DB) (mid : String) :
    ((listMemories db).filter (fun r => r.memory_id = mid)).Perm
      (currentRowsFor db mid) := by
  have hp : (listMemories db).Perm (activeRows db) := List.mergeSort_perm _ _
  have := hp.filter (fun r => decide (r.memory_id = mid))
  rw [activeRows, activeR_filter_mid] at this
  exact this

theorem rowLE_trans (a b c : Row) (h1 : rowLE a b) (h2 : rowLE b c) : rowLE a c := by
  unfold rowLE at *
  by_cases hab : a.memory_id = b.memory_id <;> by_cases hbc : b.memory_id = c.memory_id
  · rw [if_pos hab] at h1
    rw [if_pos hbc] at h2
    rw [if_pos (hab.trans hbc)]
    simp only [decide_eq_true_eq] at *
    omega
  · rw [if_neg hbc] at h2
    rw [if_neg (fun h => hbc (hab.symm.trans h)), hab]
    exact h2
  · rw [if_neg hab] at h1
    rw [if_neg (fun h => hab (h.trans hbc.symm)), ← hbc]
    exact h1
  · rw [if_neg hab] at h1
    rw [if_neg hbc] at h2
    simp only [decide_eq_true_eq] at h1 h2
    have hlt := lt_trans h1 h2
    have hne : ¬ a.memory_id = c.memory_id := by
      intro h
      rw [h] at hlt
      exact absurd rfl (ne_of_lt hlt)
    rw [if_neg hne]
    simpa using hlt

theorem rowLE_total (a b : Row) : rowLE a b || rowLE b a := by
  unfold rowLE
  by_cases hab : a.memory_id = b.memory_id
  · rw [if_pos hab, if_pos hab.symm]
    rcases Nat.le_total a.version b.version with h | h <;> simp [h]
  · rw [if_neg hab, if_neg (fun h => hab h.symm)]
    have hd : ¬ a.memory_id.data = b.memory_id.data :=
      fun h => hab (String.ext h)
    rcases lt_or_gt_of_ne hd with h | h <;> simp [h]

theorem likeStar_true {f : List Char → Bool} (hf : f [] = true) :
    ∀ s, likeStar f s = true := by
  intro s
  induction s with
  | nil => simpa [likeStar] using hf
  | cons c cs ih => simp [likeStar, ih]

theorem likeMatch_single_percent (s : List Char) : likeMatch ['%'] s = true := by
  show likeStar (likeMatch []) s = true
  exact likeStar_true rfl s

theorem likeMatch_empty_query (s : List Char) :
    likeMatch (likePattern "") s = true := by
  show likeStar (likeMatch ['%']) s = true
  exact likeStar_true (likeMatch_single_percent []) s

theorem searchMatch_empty_query (r : Row) : searchMatch "" r = true := by
  unfold searchMatch
  rw [likeMatch_empty_query]
  simp

theorem archiveRow_memory_id (mid : String) (r : Row) :
    (archiveRow mid r).memory_id = r.memory_id := by
  unfold archiveRow; split <;> simp

theorem archiveRow_idem (mid : String) (r : Row) :
    archiveRow mid (archiveRow mid r) = archiveRow mid r := by
  unfold archiveRow
  split <;> rfl

theorem currentRowsR_archiveRowMap (rows : List Row) (mid : String) :
    currentRowsR (rows.map (archiveRow mid)) mid = [] := by
  unfold currentRowsR
  rw [List.filter_eq_nil_iff]
  intro a ha
  obtain ⟨r, _, rfl⟩ := List.mem_map.mp ha
  unfold archiveRow
  split
  · simp
  · rename_i h
    simp [h]

theorem mem_length_le_one_singleton {l : List Row} {a : Row}
    (hm : a ∈ l) (hl : l.length ≤ 1) : l = [a] := by
  match l with
  | [] => simp at hm
  | [x] =>
      rcases List.mem_singleton.mp hm with rfl
      rfl
  | x :: y :: t => simp at hl

theorem contains_iff_mem {l : List String} {a : String} :
    l.contains a = true ↔ a ∈ l :=
  List.elem_iff

/-! ### Facts about sequences of write operations -/

theorem applyOp_version (mid : String) (db : DB) (op : WriteOp) :
    (applyOp mid db op).2.version = some (maxVersion db mid + 1) := by
  cases op
  · rfl
  · show some (maxVersionR (db.rows.map (archiveIfActive mid)) mid + 1) = _
    rw [maxVersionR_archiveMap]
    rfl

theorem applyOp_maxVersion (mid : String) (db : DB) (op : WriteOp) :
    maxVersion (applyOp mid db op).1 mid = maxVersion db mid + 1 := by
  cases op
  · exact maxVersion_save db mid _ _ _
  · exact maxVersion_update db mid _ _ _

theorem runOps_versions (mid : String) (ops : List WriteOp) :
    ∀ db : DB, (runOps db mid ops).2 =
      List.range' (maxVersion db mid + 1) ops.length := by
  induction ops with
  | nil => intro db; rfl
  | cons op rest ih =>
      intro db
      show ((applyOp mid db op).2.version.getD 0) ::
        (runOps (applyOp mid db op).1 mid rest).2 = _
      rw [applyOp_version, ih, applyOp_maxVersion, List.length_cons,
        List.range'_succ]
      rfl

theorem applyUpdates_append (db : DB) (mid : String) (us : List UpdArgs)
    (u : UpdArgs) :
    applyUpdates db mid (us ++ [u]) =
      (updateMemory (applyUpdates db mid us) mid u.content u.tags u.now).1 := by
  simp [applyUpdates, List.foldl_append]

/-! ### Small facts about the concrete states -/

theorem atMostOneActive_single (r : Row) (n : Nat) : atMostOneActive ⟨[r], n⟩ := by
  intro mid
  simp only [currentRowsFor, currentRowsR, List.filter_cons, List.filter_nil]
  split <;> simp

/-! ### The claims -/

/-- C3: Save(memory_id, content, tags) leaves every existing row unchanged
(it archives nothing) and adds exactly one new non-archived row; two
consecutive Save calls on the same id therefore leave two non-archived
records coexisting for that id. -/
theorem c3_save_pure_append (db : DB) (mid c1 c2 : String) (t1 t2 : List String)
    (n1 n2 : Nat) :
    (∀ r ∈ db.rows, r ∈ (saveMemory db mid c1 t1 n1).1.rows) ∧
    (∃ r1 : Row, (saveMemory db mid c1 t1 n1).1.rows = db.rows ++ [r1] ∧
      r1.memory_id = mid ∧ r1.content = c1 ∧ r1.archived = false) ∧
    (currentRowsFor (saveMemory (saveMemory db mid c1 t1 n1).1 mid c2 t2 n2).1 mid).length =
      (currentRowsFor db mid).length + 2 := by
  refine ⟨?_, ?_, ?_⟩
  · intro r hr
    show r ∈ db.rows ++ [_]
    exact List.mem_append_left _ hr
  · exact ⟨⟨db.nextRowId, mid, maxVersion db mid + 1, c1, t1, false, n1, n1⟩,
      rfl, rfl, rfl, rfl⟩
  · show (currentRowsR ((db.rows ++ [_]) ++ [_]) mid).length = _
    simp only [currentRowsR, currentRowsFor, List.filter_append, List.filter_cons,
      List.filter_nil, List.length_append]
    rw [if_pos (by simp), if_pos (by simp)]
    simp

/-- C5: Archive (the /delete-memory endpoint) is idempotent: a second call
on the same memory_id leaves the state exactly as after the first call,
and still reports status "archived". -/
theorem c5_archive_idempotent (db : DB) (mid : String) :
    deleteMemory (deleteMemory db mid).1 mid = deleteMemory db mid ∧
    (deleteMemory (deleteMemory db mid).1 mid).2.status = "archived" := by
  constructor
  · show ((⟨⟨(db.rows.map (archiveRow mid)).map (archiveRow mid), db.nextRowId⟩,
      ⟨"archived", mid, none⟩⟩ : DB × StatusResponse) = deleteMemory db mid)
    rw [List.map_map]
    have hmap : db.rows.map (archiveRow mid ∘ archiveRow mid) =
        db.rows.map (archiveRow mid) :=
      List.map_congr_left (fun r _ => archiveRow_idem mid r)
    rw [hmap]
    rfl
  · rfl

/-- C9: for each of the three POST endpoints, a malformed request body
produces a validation (bad-request) error — a constructor distinct from the
internal store-failure error and from not-found — and the store state is
returned unchanged, mirroring the handlers' early return before any SQL
statement. -/
theorem c9_validation_errors (db : DB) (e : String) (now : Nat) :
    saveHandler db (.error e) now = (db, .error (.badRequest e)) ∧
    updateHandler db (.error e) now = (db, .error (.badRequest e)) ∧
    deleteHandler db (.error e) = (db, .error (.badRequest e)) ∧
    (∀ d, ApiError.badRequest e ≠ ApiError.internal d) ∧
    (∀ d, ApiError.badRequest e ≠ ApiError.notFound d) :=
  ⟨rfl, rfl, rfl, fun _ h => ApiError.noConfusion h, fun _ h => ApiError.noConfusion h⟩

/-- Post-state of a single Update call: the lineage has exactly one active
row, the freshly inserted one. -/
theorem update_post (d : DB) (mid c : String) (ts : List String) (now : Nat) :
    ∃ r : Row,
      currentRowsFor (updateMemory d mid c ts now).1 mid = [r] ∧
      r.content = c ∧ r.archived = false ∧ r.memory_id = mid ∧
      (∀ r' ∈ (updateMemory d mid c ts now).1.rows,
        r'.memory_id = mid → r'.archived = false → r' = r) ∧
      getMemoryById (updateMemory d mid c ts now).1 mid = .ok r ∧
      (listMemories (updateMemory d mid c ts now).1).filter
        (fun x => x.memory_id = mid) = [r] := by
  refine ⟨⟨d.nextRowId, mid, maxVersion d mid + 1, c, ts, false, now, now⟩,
    currentRowsFor_update d mid c ts now, rfl, rfl, rfl, ?_, ?_, ?_⟩
  · intro r' hmem hm ha
    have hcur : r' ∈ currentRowsFor (updateMemory d mid c ts now).1 mid :=
      List.mem_filter.mpr ⟨hmem, by simp [hm, ha]⟩
    rw [currentRowsFor_update] at hcur
    simpa using hcur
  · exact getMemoryById_single (currentRowsFor_update d mid c ts now)
  · have hp := listMemories_filter_mid_perm (updateMemory d mid c ts now).1 mid
    rw [currentRowsFor_update] at hp
    exact List.perm_singleton.mp hp

/-- C1: starting from a state with at most one active record for the id,
any non-empty sequence of Update calls leaves exactly one non-archived
record for the id — every previously active row is archived, one new active
row is inserted — and GetByID and ListCurrent both return exactly that
record, whose content is the most recently supplied one. -/
theorem c1_update_single_current (db : DB) (mid : String)
    (h : (currentRowsFor db mid).length ≤ 1) (us : List UpdArgs) (u : UpdArgs) :
    ∃ r : Row,
      currentRowsFor (applyUpdates db mid (us ++ [u])) mid = [r] ∧
      r.content = u.content ∧ r.archived = false ∧ r.memory_id = mid ∧
      (∀ r' ∈ (applyUpdates db mid (us ++ [u])).rows,
        r'.memory_id = mid → r'.archived = false → r' = r) ∧
      getMemoryById (applyUpdates db mid (us ++ [u])) mid = .ok r ∧
      (listMemories (applyUpdates db mid (us ++ [u]))).filter
        (fun x => x.memory_id = mid) = [r] := by
  rw [applyUpdates_append]
  exact update_post (applyUpdates db mid us) mid u.content u.tags u.now

/-- Witness for C1 at a concrete input: one Update on the empty store
leaves exactly one active record for the id. -/
theorem c1_witness :
    (currentRowsFor (applyUpdates emptyDB "X" ([] ++ [⟨"hello", [], 5⟩])) "X").length
      = 1 := by
  obtain ⟨r, hr, -⟩ :=
    c1_update_single_current emptyDB "X" (by decide) [] ⟨"hello", [], 5⟩
  rw [hr]
  rfl

/-- C2: each Save/Update call answers with max version over all existing
rows of the lineage plus one (empty maximum treated as 0), and a sequence
of N such calls on a fresh memory_id reports exactly the versions
1, 2, ..., N — strictly increasing, no duplicates, no gaps. -/
theorem c2_versions (db : DB) (mid : String) (ops : List WriteOp)
    (hfresh : db.rows.filter (fun r => r.memory_id = mid) = []) :
    (∀ (d : DB) (op : WriteOp), (applyOp mid d op).2.version =
        some (maxVersion d mid + 1)) ∧
    (runOps db mid ops).2 = List.range' 1 ops.length ∧
    (runOps db mid ops).2.Pairwise (· < ·) := by
  have h0 : maxVersion db mid = 0 := by
    simp [maxVersion, maxVersionR, hfresh]
  refine ⟨applyOp_version mid, ?_, ?_⟩
  · rw [runOps_versions, h0]
  · rw [runOps_versions, h0]
    exact List.pairwise_lt_range' 1 ops.length

/-- Witness for C2 at a concrete input: a Save followed by an Update on a
fresh id report versions 1 and 2. -/
theorem c2_witness :
    (runOps emptyDB "X" [.save "a" [] 0, .update "b" [] 1]).2 =
      List.range' 1 2 :=
  (c2_versions emptyDB "X" [.save "a" [] 0, .update "b" [] 1] (by decide)).2.1

/-- C4: GetByID returns an active, maximal-version row of the requested
lineage; it reports not-found exactly when every row of the lineage is
archived (in particular when the lineage is empty); and after /delete-memory
the lineage is invisible to both GetByID and ListCurrent. -/
theorem c4_get_by_id (db : DB) (mid : String) :
    (∀ r : Row, getMemoryById db mid = .ok r →
        r ∈ db.rows ∧ r.memory_id = mid ∧ r.archived = false ∧
        ∀ r' ∈ db.rows, r'.memory_id = mid → r'.archived = false →
          r'.version ≤ r.version) ∧
    (getMemoryById db mid = .error (.notFound "not found") ↔
      ∀ r ∈ db.rows, r.memory_id = mid → r.archived = true) ∧
    getMemoryById (deleteMemory db mid).1 mid = .error (.notFound "not found") ∧
    (listMemories (deleteMemory db mid).1).filter (fun r => r.memory_id = mid)
      = [] := by
  refine ⟨?_, ?_, ?_, ?_⟩
  · intro r hok
    obtain ⟨hmem, hmax⟩ := getMemoryById_ok_max hok
    have hf := List.mem_filter.mp hmem
    have hp : r.memory_id = mid ∧ r.archived = false := by simpa using hf.2
    refine ⟨hf.1, hp.1, hp.2, ?_⟩
    intro r' hr' hm ha
    exact hmax r' (List.mem_filter.mpr ⟨hr', by simp [hm, ha]⟩)
  · rw [getMemoryById_err_iff]
    unfold currentRowsFor currentRowsR
    rw [List.filter_eq_nil_iff]
    constructor
    · intro hnone r hr hm
      have hthis := hnone r hr
      simpa [hm] using hthis
    · intro hall r hr
      simp only [decide_eq_true_eq, not_and]
      intro hm
      rw [hall r hr hm]
      simp
  · rw [getMemoryById_err_iff]
    show currentRowsR (db.rows.map (archiveRow mid)) mid = []
    exact currentRowsR_archiveRowMap db.rows mid
  · have hp := listMemories_filter_mid_perm (deleteMemory db mid).1 mid
    have hcur : currentRowsFor (deleteMemory db mid).1 mid = [] :=
      currentRowsR_archiveRowMap db.rows mid
    rw [hcur] at hp
    exact List.perm_nil.mp hp

/-- Witness for C4 at a concrete input: after archiving the only lineage,
GetByID reports not-found; and the row GetByID returned beforehand was not
archived. -/
theorem c4_witness :
    getMemoryById (deleteMemory dbSingle "m").1 "m" =
      .error (.notFound "not found") ∧
    rowSingle.archived = false :=
  ⟨(c4_get_by_id dbSingle "m").2.2.1,
   ((c4_get_by_id dbSingle "m").1 rowSingle
      (getMemoryById_single (by decide))).2.2.1⟩

/-- Counterexample to C6 as stated: in the reachable state after
Save("X","c1",["p"]) then Save("X","c2",[]), ListByTag("p") returns the
version-1 row even though it is not the current record of its lineage —
the current record (returned by GetByID) carries no "p" tag at all; and
after two Saves both tagged "p", ListByTag("p") returns two records for
the single memory_id "X". -/
theorem c6_counterexample :
    listMemoriesByTag dbMixedTags "p" = .ok [rowTagV1] ∧
    getMemoryById dbMixedTags "X" = .ok rowTagV2 ∧
    rowTagV2.tags.contains "p" = false ∧
    rowTagV1 ≠ rowTagV2 ∧
    listMemoriesByTag dbTwoTagged "p" = .ok [rowTagV2p, rowTagV1] ∧
    rowTagV1.memory_id = rowTagV2p.memory_id := by
  have hact1 : activeRows dbMixedTags = [rowTagV1, rowTagV2] := by decide
  have hact2 : activeRows dbTwoTagged = [rowTagV1, rowTagV2p] := by decide
  have hsort1 : listMemories dbMixedTags = [rowTagV2, rowTagV1] := by
    show (activeRows dbMixedTags).mergeSort rowLE = _
    rw [hact1, mergeSort_pair, if_neg (by decide)]
  have hsort2 : listMemories dbTwoTagged = [rowTagV2p, rowTagV1] := by
    show (activeRows dbTwoTagged).mergeSort rowLE = _
    rw [hact2, mergeSort_pair, if_neg (by decide)]
  refine ⟨?_, ?_, by decide, by decide, ?_, by decide⟩
  · show (if ("p" : String) = "" then _ else _) = _
    rw [if_neg (by decide), hsort1]
    exact congrArg Except.ok (by decide)
  · have hcur : currentRowsFor dbMixedTags "X" = [rowTagV1, rowTagV2] := by
      decide
    unfold getMemoryById
    rw [hcur, mergeSort_pair, if_neg (by decide)]
    rfl
  · show (if ("p" : String) = "" then _ else _) = _
    rw [if_neg (by decide), hsort2]
    exact congrArg Except.ok (by decide)

/-- C6 amended: for every non-empty tag, in states where each memory_id has
at most one non-archived record (invariant I2), ListByTag(tag) returns
exactly the current records whose tags sequence contains the tag verbatim
(so a proper substring of a tag does not match, membership being exact
string equality), one record per memory_id; the empty tag is a validation
error, not match-all. -/
theorem c6_list_by_tag (db : DB) (tag : String) (hI2 : atMostOneActive db)
    (hne : tag ≠ "") :
    (∃ l, listMemoriesByTag db tag = .ok l ∧
      (∀ r : Row, r ∈ l ↔ (getMemoryById db r.memory_id = .ok r ∧ tag ∈ r.tags)) ∧
      (∀ mid, (l.filter (fun r => r.memory_id = mid)).length ≤ 1)) ∧
    listMemoriesByTag db "" = .error (.badRequest "Missing tag parameter") := by
  constructor
  · refine ⟨(listMemories db).filter (fun r => r.tags.contains tag), ?_, ?_, ?_⟩
    · unfold listMemoriesByTag
      rw [if_neg hne]
    · intro r
      constructor
      · intro hmem
        have hf := List.mem_filter.mp hmem
        have htag : tag ∈ r.tags := contains_iff_mem.mp hf.2
        have hact : r ∈ activeRows db := List.mem_mergeSort.mp hf.1
        have hfa := List.mem_filter.mp hact
        have harch : r.archived = false := by simpa using hfa.2
        have hcur : r ∈ currentRowsFor db r.memory_id :=
          List.mem_filter.mpr ⟨hfa.1, by simp [harch]⟩
        have hsing := mem_length_le_one_singleton hcur (hI2 r.memory_id)
        exact ⟨getMemoryById_single hsing, htag⟩
      · rintro ⟨hok, htag⟩
        obtain ⟨hmem, -⟩ := getMemoryById_ok_max hok
        have hf := List.mem_filter.mp hmem
        have hpq : r.memory_id = r.memory_id ∧ r.archived = false := by
          simpa using hf.2
        refine List.mem_filter.mpr ⟨List.mem_mergeSort.mpr ?_, ?_⟩
        · exact List.mem_filter.mpr ⟨hf.1, by simp [hpq.2]⟩
        · exact contains_iff_mem.mpr htag
    · intro mid
      have hswap : ((listMemories db).filter (fun r => r.tags.contains tag)).filter
          (fun r => r.memory_id = mid) =
          ((listMemories db).filter (fun r => decide (r.memory_id = mid))).filter
          (fun r => r.tags.contains tag) := by
        rw [List.filter_filter, List.filter_filter]
        apply List.filter_congr
        intro a _
        rw [Bool.and_comm]
      rw [hswap]
      have h1 := List.length_filter_le (fun r => r.tags.contains tag)
        ((listMemories db).filter (fun r => decide (r.memory_id = mid)))
      have h2 := (listMemories_filter_mid_perm db mid).length_eq
      exact le_trans h1 (h2 ▸ hI2 mid)
  · rfl

/-- Witness for C6 at a concrete input: the empty tag is rejected. -/
theorem c6_witness :
    listMemoriesByTag dbSingle "" = .error (.badRequest "Missing tag parameter") :=
  (c6_list_by_tag dbSingle "p" (atMostOneActive_single rowSingle 2) (by decide)).2

/-- Counterexample to C7 as stated: the query "_b" is not a literal
substring of either field of the row, yet Search returns the row, because
the SQL LIKE wildcard "_" matches the character "a" of the content "ab". -/
theorem c7_counterexample :
    searchMemories dbUnderscore "_b" = [rowUnderscore] ∧
    containsSubstr "_b" rowUnderscore.memory_id = false ∧
    containsSubstr "_b" rowUnderscore.content = false := by
  refine ⟨?_, by decide, by decide⟩
  show ((activeRows dbUnderscore).filter (searchMatch "_b")).mergeSort rowLE = _
  have h : (activeRows dbUnderscore).filter (searchMatch "_b") = [rowUnderscore] := by
    decide
  rw [h, List.mergeSort_singleton]

/-- C7 amended: under invariant I2, Search(q) returns exactly the current
records whose memory_id or content matches the SQL LIKE pattern
"%" + q + "%" (wildcards in q unescaped, SQLite default LIKE semantics),
and the empty query matches everything: Search("") equals ListCurrent. -/
theorem c7_search_amended (db : DB) (q : String) (hI2 : atMostOneActive db) :
    (∀ r : Row, r ∈ searchMemories db q ↔
        (getMemoryById db r.memory_id = .ok r ∧ searchMatch q r = true)) ∧
    searchMemories db "" = listMemories db := by
  constructor
  · intro r
    constructor
    · intro hmem
      have hin := List.mem_mergeSort.mp hmem
      have hf := List.mem_filter.mp hin
      have hfa := List.mem_filter.mp hf.1
      have harch : r.archived = false := by simpa using hfa.2
      have hcur : r ∈ currentRowsFor db r.memory_id :=
        List.mem_filter.mpr ⟨hfa.1, by simp [harch]⟩
      have hsing := mem_length_le_one_singleton hcur (hI2 r.memory_id)
      exact ⟨getMemoryById_single hsing, hf.2⟩
    · rintro ⟨hok, hmatch⟩
      obtain ⟨hmem, -⟩ := getMemoryById_ok_max hok
      have hf := List.mem_filter.mp hmem
      have hpq : r.memory_id = r.memory_id ∧ r.archived = false := by
        simpa using hf.2
      refine List.mem_mergeSort.mpr (List.mem_filter.mpr ⟨?_, hmatch⟩)
      exact List.mem_filter.mpr ⟨hf.1, by simp [hpq.2]⟩
  · have hfil : (activeRows db).filter (searchMatch "") = activeRows db :=
      List.filter_eq_self.mpr (fun a _ => searchMatch_empty_query a)
    show ((activeRows db).filter (searchMatch "")).mergeSort rowLE = _
    rw [hfil]
    rfl

/-- Witness for C7 at a concrete input: on a one-row store the empty query
returns the full current listing. -/
theorem c7_witness : searchMemories dbSingle "" = listMemories dbSingle :=
  (c7_search_amended dbSingle "" (atMostOneActive_single rowSingle 2)).2

/-- Counterexample to C8 as stated: after two Save calls on the same id
(a reachable state), ListCurrent returns two records for that id, not the
single current record. -/
theorem c8_counterexample :
    ((listMemories dbTwoSaves).filter (fun r => r.memory_id = "X")).length = 2 := by
  rw [(listMemories_filter_mid_perm dbTwoSaves "X").length_eq]
  decide

/-- C8 amended: in states satisfying invariant I2 (at most one active row
per memory_id), ListCurrent returns for each id with an active record the
single current record — active, of maximal version, the one GetByID
returns — and its output is ordered by memory_id ascending with version
descending as tie-break. -/
theorem c8_list_current_amended (db : DB) (hI2 : atMostOneActive db) :
    (∀ mid, currentRowsFor db mid ≠ [] →
      ∃ r : Row, (listMemories db).filter (fun x => x.memory_id = mid) = [r] ∧
        getMemoryById db mid = .ok r ∧ r.archived = false ∧ r.memory_id = mid ∧
        ∀ r' ∈ db.rows, r'.memory_id = mid → r'.archived = false →
          r'.version ≤ r.version) ∧
    (listMemories db).Pairwise (fun a b => rowLE a b = true) := by
  constructor
  · intro mid hne
    rcases hcur : currentRowsFor db mid with _ | ⟨r, t⟩
    · exact absurd hcur hne
    · have hlen := hI2 mid
      rw [hcur] at hlen
      have ht : t = [] := by
        cases t
        · rfl
        · simp at hlen
      subst ht
      have hok := getMemoryById_single hcur
      obtain ⟨hmem, hmax⟩ := getMemoryById_ok_max hok
      have hf := List.mem_filter.mp hmem
      have hpq : r.memory_id = mid ∧ r.archived = false := by simpa using hf.2
      refine ⟨r, ?_, hok, hpq.2, hpq.1, ?_⟩
      · have hp := listMemories_filter_mid_perm db mid
        rw [hcur] at hp
        exact List.perm_singleton.mp hp
      · intro r' hr' hm ha
        exact hmax r' (List.mem_filter.mpr ⟨hr', by simp [hm, ha]⟩)
  · exact List.sorted_mergeSort rowLE_trans rowLE_total (activeRows db)

/-- Witness for C8 (amended) at a concrete input: on a one-row store the
listing has exactly one record for the id. -/
theorem c8_witness :
    ((listMemories dbSingle).filter (fun x => x.memory_id = "m")).length = 1 := by
  obtain ⟨r, hr, -⟩ :=
    (c8_list_current_amended dbSingle (atMostOneActive_single rowSingle 2)).1
      "m" (by decide)
  rw [hr]
  rfl

/-- C10: Search treats its query as an unescaped LIKE pattern wrapped in
"%"..."%": the query "x_z" is not a literal substring of either field of
the stored row, yet Search returns the row, since the unescaped "_"
wildcard matches the "y" of "xyz". -/
theorem c10_like_wildcards :
    searchMemories dbWild "x_z" = [rowWild] ∧
    containsSubstr "x_z" rowWild.memory_id = false ∧
    containsSubstr "x_z" rowWild.content = false := by
  refine ⟨?_, by decide, by decide⟩
  show ((activeRows dbWild).filter (searchMatch "x_z")).mergeSort rowLE = _
  have h : (activeRows dbWild).filter (searchMatch "x_z") = [rowWild] := by decide
  rw [h, List.mergeSort_singleton]

/-- Witness for C3 at a concrete input: two Saves on the fresh id "X" leave
two active records where there were none. -/
theorem c3_witness :
    (currentRowsFor (saveMemory (saveMemory emptyDB "X" "v1" ["t"] 0).1
        "X" "v2" [] 1).1 "X").length =
      (currentRowsFor emptyDB "X").length + 2 :=
  (c3_save_pure_append emptyDB "X" "v1" "v2" ["t"] [] 0 1).2.2

/-- Witness for C9 at a concrete input: a failed body decode on
/save-memory leaves the store untouched and yields the bad-request error. -/
theorem c9_witness :
    saveHandler emptyDB (.error "bad json") 7 =
      (emptyDB, .error (.badRequest "bad json")) :=
  (c9_validation_errors emptyDB "bad json" 7).1

end MemoryServer
